import Mathlib

/-!
Verification of the pairwise squared-Euclidean-distance-matrix routines of
the SummerSchool2021 notebooks.

A 2-D numpy array is embedded as a `List (List ℚ)` of rows together with its
column count, which numpy stores as shape metadata and which the routines
consult (via `np.dot` and broadcasting) without reading the data.  Exact
rational arithmetic stands in for floating point.  A numpy call that raises
(`ValueError` from `np.dot` or from an impossible broadcast, `AssertionError`
from the backend check) is embedded as `Except.error`.
-/

namespace EuclidDM

/-- Errors raised by the embedded routines: `shapeMismatch` models the
`ValueError` numpy raises on incompatible shapes, `assertFailed` models a
failed `assert` statement. -/
inductive NpError where
  | shapeMismatch : NpError
  | assertFailed : NpError
deriving DecidableEq, Repr

instance {ε α : Type} [DecidableEq ε] [DecidableEq α] :
    DecidableEq (Except ε α) := fun a b =>
  match a, b with
  | Except.ok u, Except.ok v => decidable_of_iff (u = v) (by simp)
  | Except.error u, Except.error v => decidable_of_iff (u = v) (by simp)
  | Except.ok _, Except.error _ => Decidable.isFalse (by simp)
  | Except.error _, Except.ok _ => Decidable.isFalse (by simp)

/-- `Rect M x` : every row of `x` has length `M`, i.e. the list of rows is
the data of a well-formed numpy array whose second shape component is `M`. -/
def Rect (M : ℕ) (x : List (List ℚ)) : Prop := ∀ r ∈ x, r.length = M

instance (M : ℕ) (x : List (List ℚ)) : Decidable (Rect M x) :=
  decidable_of_iff (∀ r ∈ x, r.length = M) Iff.rfl

/-- One component of `np.einsum(ij,ij->i, x, x)` : the elementwise product
of a row with itself, summed. -/
def einsumRow (r : List ℚ) : ℚ := (List.zipWith (fun a b => a * b) r r).sum

/-- `np.einsum(ij,ij->i, x, x)` : the vector of row-wise self dot products. -/
def einsumRowSelf (x : List (List ℚ)) : List ℚ := x.map einsumRow

/-- One component of `(x * x).sum(axis=1)` : the sum of the squares of the
entries of a row. -/
def sqRow (r : List ℚ) : ℚ := (r.map fun a => a * a).sum

/-- `(x * x).sum(axis=1)` : the vector of row-wise sums of squares. -/
def rowSquareSum (x : List (List ℚ)) : List ℚ := x.map sqRow

/-- One entry of `np.dot(x, y.T)` : the dot product of a row of `x` with a
row of `y`. -/
def rowDot (a b : List ℚ) : ℚ := (List.zipWith (fun u v => u * v) a b).sum

/-- Entry `(i, j)` of a matrix given as a list of rows (0 outside bounds). -/
def entry (r : List (List ℚ)) (i j : ℕ) : ℚ := (r.getD i []).getD j 0

/-- Embedding of `euclidean_trick` from the numpy notebook.  `Mx`/`My` are
the column counts of `x`/`y`.  `x2 = np.einsum(ij,ij->i, x, x)[:, None]`,
`y2 = np.einsum(ij,ij->i, y, y)[None, :]` and `xy = np.dot(x, y.T)`;
`np.dot` raises unless `Mx = My`; the result `np.abs(x2 + y2 - 2.*xy)` has
entry `(i, j)` equal to `|x2_i + y2_j - 2 * xy_ij|`. -/
def euclidean_trick (Mx My : ℕ) (x y : List (List ℚ)) :
    Except NpError (List (List ℚ)) :=
  if Mx = My then
    Except.ok (x.map fun xi => y.map fun yj =>
      |einsumRow xi + einsumRow yj - 2 * rowDot xi yj|)
  else Except.error NpError.shapeMismatch

/-- Element `k` of a row under numpy broadcasting along the last axis: a
length-1 axis is repeated, otherwise the row is indexed directly. -/
def bEl (M : ℕ) (r : List ℚ) (k : ℕ) : ℚ :=
  if M = 1 then r.getD 0 0 else r.getD k 0

/-- Length of the broadcast last axis of `x[:, None, :] - y[None, :, :]`
when the two column counts are compatible. -/
def bLen (Mx My : ℕ) : ℕ := if Mx = 1 then My else Mx

/-- Embedding of `euclidean_broadcast` from the numpy notebook.
`diff = x[:, None, :] - y[None, :, :]` broadcasts shapes `(N, 1, Mx)` and
`(1, N2, My)`: this raises unless `Mx = My` or one of them is `1`, and
otherwise `diff[i][j][k] = x[i][k or 0] - y[j][k or 0]`; the result
`(diff * diff).sum(axis=2)` sums the squares over the broadcast axis. -/
def euclidean_broadcast (Mx My : ℕ) (x y : List (List ℚ)) :
    Except NpError (List (List ℚ)) :=
  if Mx = My ∨ Mx = 1 ∨ My = 1 then
    Except.ok (x.map fun xi => y.map fun yj =>
      ((List.range (bLen Mx My)).map fun k =>
        (bEl Mx xi k - bEl My yj k) * (bEl Mx xi k - bEl My yj k)).sum)
  else Except.error NpError.shapeMismatch

/-- Embedding of `euclidean_np` from the cupy notebook: same combination as
`euclidean_trick` but with the row norms computed as `(x * x).sum(axis=1)`
instead of `np.einsum`. -/
def euclidean_np (Mx My : ℕ) (x y : List (List ℚ)) :
    Except NpError (List (List ℚ)) :=
  if Mx = My then
    Except.ok (x.map fun xi => y.map fun yj =>
      |sqRow xi + sqRow yj - 2 * rowDot xi yj|)
  else Except.error NpError.shapeMismatch

/-- Embedding of `euclidean_cp` from the cupy notebook: textually the same
computation as `euclidean_np`, executed by the cupy backend. -/
def euclidean_cp (Mx My : ℕ) (x y : List (List ℚ)) :
    Except NpError (List (List ℚ)) :=
  if Mx = My then
    Except.ok (x.map fun xi => y.map fun yj =>
      |sqRow xi + sqRow yj - 2 * rowDot xi yj|)
  else Except.error NpError.shapeMismatch

/-- The array backend an array lives in: numpy (CPU) or cupy (GPU). -/
inductive Backend where
  | np : Backend
  | cp : Backend
deriving DecidableEq, Repr

/-- A backend-tagged 2-D array: its backend, its column count and its rows. -/
structure BArr where
  backend : Backend
  ncols : ℕ
  data : List (List ℚ)
deriving DecidableEq, Repr

/-- `cp.get_array_module` : the module (backend) an array belongs to. -/
def get_array_module (x : BArr) : Backend := x.backend

/-- Embedding of the backend-agnostic `euclidean` from the cupy notebook:
`assert xp == cp.get_array_module(y)` aborts when the two arrays live in
different backends, before any arithmetic; otherwise the `xp` operations
perform the same computation as the per-backend versions. -/
def euclidean (x y : BArr) : Except NpError (List (List ℚ)) :=
  if get_array_module x = get_array_module y then
    if x.ncols = y.ncols then
      Except.ok (x.data.map fun xi => y.data.map fun yj =>
        |sqRow xi + sqRow yj - 2 * rowDot xi yj|)
    else Except.error NpError.shapeMismatch
  else Except.error NpError.assertFailed

/-- Squared Euclidean distance between two equal-length vectors, written
from the spec glossary: the sum over features of the squared per-feature
difference. -/
def sqDist (a b : List ℚ) : ℚ :=
  (List.zipWith (fun u v => (u - v) * (u - v)) a b).sum

lemma zipWith_mul_self (r : List ℚ) :
    List.zipWith (fun a b => a * b) r r = r.map fun a => a * a := by
  induction r with
  | nil => rfl
  | cons u t ih => simp [ih]

lemma einsumRow_eq_sqRow (r : List ℚ) : einsumRow r = sqRow r := by
  simp [einsumRow, sqRow, zipWith_mul_self]

lemma rowDot_comm : ∀ a b : List ℚ, rowDot a b = rowDot b a := by
  intro a
  induction a with
  | nil => intro b; cases b <;> rfl
  | cons u t ih =>
    intro b
    cases b with
    | nil => rfl
    | cons v s =>
      show u * v + rowDot t s = v * u + rowDot s t
      rw [mul_comm, ih]

lemma sqDist_expand : ∀ a b : List ℚ, a.length = b.length →
    einsumRow a + einsumRow b - 2 * rowDot a b = sqDist a b := by
  intro a
  induction a with
  | nil =>
    intro b h
    cases b with
    | nil => show 0 + 0 - 2 * 0 = 0; ring
    | cons v s => simp at h
  | cons u t ih =>
    intro b h
    cases b with
    | nil => simp at h
    | cons v s =>
      have h2 : t.length = s.length := by simpa using h
      have ihs := ih s h2
      show u * u + einsumRow t + (v * v + einsumRow s)
          - 2 * (u * v + rowDot t s) = (u - v) * (u - v) + sqDist t s
      linear_combination ihs

lemma sqDist_nonneg : ∀ a b : List ℚ, 0 ≤ sqDist a b := by
  intro a
  induction a with
  | nil => intro b; cases b <;> simp [sqDist]
  | cons u t ih =>
    intro b
    cases b with
    | nil => simp [sqDist]
    | cons v s =>
      show 0 ≤ (u - v) * (u - v) + sqDist t s
      exact add_nonneg (mul_self_nonneg _) (ih s)

lemma trick_cell_eq_sqDist (a b : List ℚ) (h : a.length = b.length) :
    |einsumRow a + einsumRow b - 2 * rowDot a b| = sqDist a b := by
  rw [sqDist_expand a b h, abs_of_nonneg (sqDist_nonneg a b)]

lemma getD_map_of_lt {α β : Type} (f : α → β) :
    ∀ (l : List α) (i : ℕ), i < l.length → ∀ (d : β) (d' : α),
      (l.map f).getD i d = f (l.getD i d') := by
  intro l
  induction l with
  | nil => intro i h; simp at h
  | cons u t ih =>
    intro i h d d'
    cases i with
    | zero => rfl
    | succ n =>
      have hn : n < t.length := by simpa using h
      simpa using ih n hn d d'

lemma entry_map (g : List ℚ → List ℚ → ℚ) (x y : List (List ℚ))
    (i j : ℕ) (hi : i < x.length) (hj : j < y.length) :
    entry (x.map fun xi => y.map fun yj => g xi yj) i j
      = g (x.getD i []) (y.getD j []) := by
  unfold entry
  rw [getD_map_of_lt _ x i hi [] []]
  exact getD_map_of_lt _ y j hj 0 []

lemma range_map_getD (g : ℚ → ℚ → ℚ) :
    ∀ a b : List ℚ, a.length = b.length →
      (List.range a.length).map (fun k => g (a.getD k 0) (b.getD k 0))
        = List.zipWith g a b := by
  intro a
  induction a with
  | nil => intro b h; rfl
  | cons u t ih =>
    intro b h
    cases b with
    | nil => simp at h
    | cons v s =>
      have h2 : t.length = s.length := by simpa using h
      show (List.range (t.length + 1)).map
          (fun k => g ((u :: t).getD k 0) ((v :: s).getD k 0))
            = g u v :: List.zipWith g t s
      rw [List.range_succ_eq_map]
      simp only [List.map_cons, List.map_map]
      rw [← ih s h2]
      refine congrArg₂ _ rfl ?_
      apply List.map_congr_left
      intro k hk
      simp [Function.comp]

lemma bLen_self (M : ℕ) : bLen M M = M := by
  unfold bLen
  exact ite_self M

lemma bEl_eq_getD (M : ℕ) (r : List ℚ) (k : ℕ) (hk : k < M) :
    bEl M r k = r.getD k 0 := by
  unfold bEl
  by_cases h1 : M = 1
  · subst h1
    obtain rfl : k = 0 := Nat.lt_one_iff.mp hk
    simp
  · rw [if_neg h1]

lemma broadcast_cell_eq_sqDist (M : ℕ) (a b : List ℚ)
    (ha : a.length = M) (hb : b.length = M) :
    ((List.range (bLen M M)).map fun k =>
      (bEl M a k - bEl M b k) * (bEl M a k - bEl M b k)).sum
      = sqDist a b := by
  rw [bLen_self]
  have hc : ∀ k ∈ List.range M,
      (bEl M a k - bEl M b k) * (bEl M a k - bEl M b k)
        = (a.getD k 0 - b.getD k 0) * (a.getD k 0 - b.getD k 0) := by
    intro k hk
    rw [bEl_eq_getD M a k (List.mem_range.mp hk),
      bEl_eq_getD M b k (List.mem_range.mp hk)]
  rw [List.map_congr_left hc, ← ha,
    range_map_getD (fun u v => (u - v) * (u - v)) a b (by rw [ha, hb])]
  rfl

lemma trick_ok (Mx My : ℕ) (x y : List (List ℚ)) (hM : Mx = My) :
    euclidean_trick Mx My x y = Except.ok (x.map fun xi => y.map fun yj =>
      |einsumRow xi + einsumRow yj - 2 * rowDot xi yj|) := by
  unfold euclidean_trick
  rw [if_pos hM]

lemma broadcast_ok (Mx My : ℕ) (x y : List (List ℚ)) (hM : Mx = My) :
    euclidean_broadcast Mx My x y =
      Except.ok (x.map fun xi => y.map fun yj =>
        ((List.range (bLen Mx My)).map fun k =>
          (bEl Mx xi k - bEl My yj k) * (bEl Mx xi k - bEl My yj k)).sum) := by
  unfold euclidean_broadcast
  rw [if_pos (Or.inl hM)]

lemma getD_length_eq {M : ℕ} {x : List (List ℚ)} (hx : Rect M x)
    {i : ℕ} (hi : i < x.length) : (x.getD i []).length = M := by
  apply hx
  rw [List.getD_eq_getElem x [] hi]
  exact List.getElem_mem hi

/-- Claim C1: for well-formed batches with a common feature-column count,
`euclidean_trick` succeeds and its entry `(i, j)` is the absolute value of
`einsum(x_i, x_i) + einsum(y_j, y_j) - 2 * dot(x_i, y_j)`, and that value
equals the squared Euclidean distance between row `i` of `x` and row `j`
of `y`. -/
theorem trick_entry_is_squared_distance (Mx My : ℕ) (x y : List (List ℚ))
    (hx : Rect Mx x) (hy : Rect My y) (hM : Mx = My)
    (i j : ℕ) (hi : i < x.length) (hj : j < y.length) :
    ∃ r, euclidean_trick Mx My x y = Except.ok r ∧
      r.length = x.length ∧ Rect y.length r ∧
      entry r i j =
        |einsumRow (x.getD i []) + einsumRow (y.getD j [])
          - 2 * rowDot (x.getD i []) (y.getD j [])| ∧
      entry r i j = sqDist (x.getD i []) (y.getD j []) := by
  refine ⟨_, trick_ok Mx My x y hM, ?_, ?_, ?_, ?_⟩
  · exact List.length_map x _
  · intro row hrow
    obtain ⟨a, _, rfl⟩ := List.mem_map.mp hrow
    exact List.length_map y _
  · exact entry_map _ x y i j hi hj
  · rw [entry_map _ x y i j hi hj]
    apply trick_cell_eq_sqDist
    rw [getD_length_eq hx hi, getD_length_eq hy hj, hM]

/-- Witness for C1 at the concrete fixture `x = y = [[0,0],[3,4]]`,
`i = 0`, `j = 1`. -/
theorem trick_entry_is_squared_distance_witness :
    ∃ r, euclidean_trick 2 2 [[0,0],[3,4]] [[0,0],[3,4]] = Except.ok r ∧
      r.length = [[(0:ℚ),0],[3,4]].length ∧
      Rect [[(0:ℚ),0],[3,4]].length r ∧
      entry r 0 1 =
        |einsumRow ([[(0:ℚ),0],[3,4]].getD 0 [])
          + einsumRow ([[(0:ℚ),0],[3,4]].getD 1 [])
          - 2 * rowDot ([[(0:ℚ),0],[3,4]].getD 0 [])
              ([[(0:ℚ),0],[3,4]].getD 1 [])| ∧
      entry r 0 1 = sqDist ([[(0:ℚ),0],[3,4]].getD 0 [])
        ([[(0:ℚ),0],[3,4]].getD 1 []) :=
  trick_entry_is_squared_distance 2 2 [[0,0],[3,4]] [[0,0],[3,4]]
    (by decide) (by decide) rfl 0 1 (by decide) (by decide)

/-- Claim C2: on well-formed batches sharing one feature-column count `M`,
the direct-difference strategy and the algebraic-expansion strategy return
identical results (exact arithmetic). -/
theorem broadcast_trick_agree (M : ℕ) (x y : List (List ℚ))
    (hx : Rect M x) (hy : Rect M y) :
    euclidean_broadcast M M x y = euclidean_trick M M x y := by
  rw [trick_ok M M x y rfl, broadcast_ok M M x y rfl]
  refine congrArg _ ?_
  apply List.map_congr_left
  intro a ha
  apply List.map_congr_left
  intro b hb
  rw [broadcast_cell_eq_sqDist M a b (hx a ha) (hy b hb),
    trick_cell_eq_sqDist a b (by rw [hx a ha, hy b hb])]

/-- Witness for C2 at the concrete fixture `x = y = [[0,0],[3,4]]`. -/
theorem broadcast_trick_agree_witness :
    euclidean_broadcast 2 2 [[0,0],[3,4]] [[0,0],[3,4]]
      = euclidean_trick 2 2 [[0,0],[3,4]] [[0,0],[3,4]] :=
  broadcast_trick_agree 2 [[0,0],[3,4]] [[0,0],[3,4]] (by decide) (by decide)

/-- Counterexample to C3 as stated: the batches `[[1]]` and `[[1,2]]` have
differing feature-column counts `1 ≠ 2`, yet `euclidean_broadcast` raises
no error: numpy broadcasting stretches the length-1 feature axis and the
call returns the matrix `[[1]]`. -/
theorem broadcast_mismatch_no_error :
    Rect 1 [[(1:ℚ)]] ∧ Rect 2 [[(1:ℚ),2]] ∧ (1 : ℕ) ≠ 2 ∧
    euclidean_broadcast 1 2 [[1]] [[1,2]] = Except.ok [[1]] := by
  refine ⟨by decide, by decide, by decide, ?_⟩
  norm_num [euclidean_broadcast, bEl, bLen, List.range_succ]

/-- Claim C3 (amended): on batches with differing feature-column counts,
`euclidean_trick`, `euclidean_np` and `euclidean_cp` always fail with the
shape-mismatch error and produce no result; `euclidean_broadcast` fails in
the same way provided neither count is 1 (a length-1 feature axis is
silently broadcast instead). -/
theorem shape_mismatch_fails (Mx My : ℕ) (x y : List (List ℚ))
    (h : Mx ≠ My) :
    euclidean_trick Mx My x y = Except.error NpError.shapeMismatch ∧
    euclidean_np Mx My x y = Except.error NpError.shapeMismatch ∧
    euclidean_cp Mx My x y = Except.error NpError.shapeMismatch ∧
    (Mx ≠ 1 → My ≠ 1 →
      euclidean_broadcast Mx My x y = Except.error NpError.shapeMismatch) := by
  refine ⟨?_, ?_, ?_, ?_⟩
  · unfold euclidean_trick; rw [if_neg h]
  · unfold euclidean_np; rw [if_neg h]
  · unfold euclidean_cp; rw [if_neg h]
  · intro h1 h2
    unfold euclidean_broadcast
    rw [if_neg]
    rintro (hc | hc | hc)
    · exact h hc
    · exact h1 hc
    · exact h2 hc

/-- Witness for C3 (amended) at `Mx = 3`, `My = 2`. -/
theorem shape_mismatch_fails_witness :
    euclidean_trick 3 2 [[1,2,3]] [[1,2]]
      = Except.error NpError.shapeMismatch ∧
    euclidean_np 3 2 [[1,2,3]] [[1,2]]
      = Except.error NpError.shapeMismatch ∧
    euclidean_cp 3 2 [[1,2,3]] [[1,2]]
      = Except.error NpError.shapeMismatch ∧
    euclidean_broadcast 3 2 [[1,2,3]] [[1,2]]
      = Except.error NpError.shapeMismatch := by
  have h := shape_mismatch_fails 3 2 [[1,2,3]] [[1,2]] (by decide)
  exact ⟨h.1, h.2.1, h.2.2.1, h.2.2.2 (by decide) (by decide)⟩

/-- Claim C4: for equal feature-column counts both strategies succeed and
every entry at valid indices is non-negative. -/
theorem entries_nonneg (Mx My : ℕ) (x y : List (List ℚ)) (i j : ℕ)
    (hM : Mx = My) (hi : i < x.length) (hj : j < y.length) :
    ∃ r s, euclidean_trick Mx My x y = Except.ok r ∧
      euclidean_broadcast Mx My x y = Except.ok s ∧
      0 ≤ entry r i j ∧ 0 ≤ entry s i j := by
  refine ⟨_, _, trick_ok Mx My x y hM, broadcast_ok Mx My x y hM, ?_, ?_⟩
  · rw [entry_map _ x y i j hi hj]
    exact abs_nonneg _
  · rw [entry_map _ x y i j hi hj]
    apply List.sum_nonneg
    intro q hq
    obtain ⟨k, _, rfl⟩ := List.mem_map.mp hq
    exact mul_self_nonneg _

/-- Witness for C4 at `x = y = [[0,0],[3,4]]`, `i = 0`, `j = 1`. -/
theorem entries_nonneg_witness :
    ∃ r s, euclidean_trick 2 2 [[0,0],[3,4]] [[0,0],[3,4]] = Except.ok r ∧
      euclidean_broadcast 2 2 [[0,0],[3,4]] [[0,0],[3,4]] = Except.ok s ∧
      0 ≤ entry r 0 1 ∧ 0 ≤ entry s 0 1 :=
  entries_nonneg 2 2 [[0,0],[3,4]] [[0,0],[3,4]] 0 1 rfl
    (by decide) (by decide)

/-- Claim C5: `euclidean_trick` applied to one batch against itself
succeeds, and at valid indices the result is symmetric with a zero
diagonal. -/
theorem self_distance_symm_zero_diag (M : ℕ) (x : List (List ℚ)) (i j : ℕ)
    (hi : i < x.length) (hj : j < x.length) :
    ∃ r, euclidean_trick M M x x = Except.ok r ∧
      entry r i j = entry r j i ∧ entry r i i = 0 := by
  refine ⟨_, trick_ok M M x x rfl, ?_, ?_⟩
  · rw [entry_map _ x x i j hi hj, entry_map _ x x j i hj hi,
      rowDot_comm (x.getD i []) (x.getD j [])]
    refine congrArg _ ?_
    ring
  · rw [entry_map _ x x i i hi hi]
    have hd : rowDot (x.getD i []) (x.getD i [])
        = einsumRow (x.getD i []) := rfl
    rw [hd]
    have hz : einsumRow (x.getD i []) + einsumRow (x.getD i [])
        - 2 * einsumRow (x.getD i []) = 0 := by ring
    rw [hz, abs_zero]

/-- Witness for C5 at `x = [[0,0],[3,4]]`, `i = 0`, `j = 1`. -/
theorem self_distance_symm_zero_diag_witness :
    ∃ r, euclidean_trick 2 2 [[0,0],[3,4]] [[0,0],[3,4]] = Except.ok r ∧
      entry r 0 1 = entry r 1 0 ∧ entry r 0 0 = 0 :=
  self_distance_symm_zero_diag 2 [[0,0],[3,4]] 0 1 (by decide) (by decide)

/-- Claim C6: with a common feature-column count `M`, swapping the two
batches transposes the result of both strategies: the `(i, j)` entry of
`compute(x, y)` equals the `(j, i)` entry of `compute(y, x)` at valid
indices. -/
theorem swap_transposes (M : ℕ) (x y : List (List ℚ)) (i j : ℕ)
    (hi : i < x.length) (hj : j < y.length) :
    (∃ r s, euclidean_trick M M x y = Except.ok r ∧
      euclidean_trick M M y x = Except.ok s ∧
      entry r i j = entry s j i) ∧
    (∃ p q, euclidean_broadcast M M x y = Except.ok p ∧
      euclidean_broadcast M M y x = Except.ok q ∧
      entry p i j = entry q j i) := by
  constructor
  · refine ⟨_, _, trick_ok M M x y rfl, trick_ok M M y x rfl, ?_⟩
    rw [entry_map _ x y i j hi hj, entry_map _ y x j i hj hi,
      rowDot_comm (x.getD i []) (y.getD j [])]
    refine congrArg _ ?_
    ring
  · refine ⟨_, _, broadcast_ok M M x y rfl, broadcast_ok M M y x rfl, ?_⟩
    rw [entry_map _ x y i j hi hj, entry_map _ y x j i hj hi]
    refine congrArg _ ?_
    apply List.map_congr_left
    intro k _
    ring

/-- Witness for C6 at `x = [[0,0],[3,4]]`, `y = [[1,1]]`, `i = 1`,
`j = 0`. -/
theorem swap_transposes_witness :
    (∃ r s, euclidean_trick 2 2 [[0,0],[3,4]] [[1,1]] = Except.ok r ∧
      euclidean_trick 2 2 [[1,1]] [[0,0],[3,4]] = Except.ok s ∧
      entry r 1 0 = entry s 0 1) ∧
    (∃ p q, euclidean_broadcast 2 2 [[0,0],[3,4]] [[1,1]] = Except.ok p ∧
      euclidean_broadcast 2 2 [[1,1]] [[0,0],[3,4]] = Except.ok q ∧
      entry p 1 0 = entry q 0 1) :=
  swap_transposes 2 [[0,0],[3,4]] [[1,1]] 1 0 (by decide) (by decide)

/-- Claim C7: both strategies reproduce the two fixtures of the spec:
`x = y = [[0,0],[3,4]]` gives `[[0,25],[25,0]]` and `x = [[1,2,3]]`,
`y = [[4,5,6]]` gives `[[27]]`. -/
theorem concrete_fixtures :
    euclidean_trick 2 2 [[0,0],[3,4]] [[0,0],[3,4]]
      = Except.ok [[0,25],[25,0]] ∧
    euclidean_broadcast 2 2 [[0,0],[3,4]] [[0,0],[3,4]]
      = Except.ok [[0,25],[25,0]] ∧
    euclidean_trick 3 3 [[1,2,3]] [[4,5,6]] = Except.ok [[27]] ∧
    euclidean_broadcast 3 3 [[1,2,3]] [[4,5,6]] = Except.ok [[27]] := by
  refine ⟨?_, ?_, ?_, ?_⟩ <;>
    norm_num [euclidean_trick, euclidean_broadcast, einsumRow, rowDot,
      bEl, bLen, List.range_succ]

/-- Claim C8: both strategies are pure functions of their inputs: two
calls on equal input batches return equal matrices (and the embedding of
the source, whose numpy operations all allocate fresh arrays, leaves the
inputs unchanged by construction). -/
theorem compute_is_pure (Mx My : ℕ) (x1 x2 y1 y2 : List (List ℚ))
    (hx : x1 = x2) (hy : y1 = y2) :
    euclidean_trick Mx My x1 y1 = euclidean_trick Mx My x2 y2 ∧
    euclidean_broadcast Mx My x1 y1 = euclidean_broadcast Mx My x2 y2 := by
  subst hx
  subst hy
  exact ⟨rfl, rfl⟩

/-- Witness for C8 at `x = [[1,2]]`, `y = [[3,4]]`. -/
theorem compute_is_pure_witness :
    euclidean_trick 2 2 [[1,2]] [[3,4]]
      = euclidean_trick 2 2 [[1,2]] [[3,4]] ∧
    euclidean_broadcast 2 2 [[1,2]] [[3,4]]
      = euclidean_broadcast 2 2 [[1,2]] [[3,4]] :=
  compute_is_pure 2 2 [[1,2]] [[1,2]] [[3,4]] [[3,4]] rfl rfl

/-- Claim C9: the backend-agnostic `euclidean` fails with the assertion
error (and produces no result) exactly when its two arguments live in
different array backends; when the backends agree it returns what the
per-backend implementation of that backend returns. -/
theorem euclidean_backend_dispatch (x y : BArr) :
    (get_array_module x ≠ get_array_module y →
      euclidean x y = Except.error NpError.assertFailed) ∧
    (get_array_module x = get_array_module y →
      euclidean x y = match x.backend with
        | Backend.np => euclidean_np x.ncols y.ncols x.data y.data
        | Backend.cp => euclidean_cp x.ncols y.ncols x.data y.data) := by
  constructor
  · intro h
    unfold euclidean
    rw [if_neg h]
  · intro h
    unfold euclidean
    rw [if_pos h]
    cases x.backend <;> rfl

/-- Witness for C9: a cpu/gpu pair trips the assertion, a cpu/cpu pair
computes `euclidean_np`. -/
theorem euclidean_backend_dispatch_witness :
    euclidean ⟨Backend.np, 2, [[1,2]]⟩ ⟨Backend.cp, 2, [[3,4]]⟩
      = Except.error NpError.assertFailed ∧
    euclidean ⟨Backend.np, 2, [[1,2]]⟩ ⟨Backend.np, 2, [[3,4]]⟩
      = euclidean_np 2 2 [[1,2]] [[3,4]] := by
  constructor
  · exact (euclidean_backend_dispatch
      ⟨Backend.np, 2, [[1,2]]⟩ ⟨Backend.cp, 2, [[3,4]]⟩).1 (by decide)
  · exact (euclidean_backend_dispatch
      ⟨Backend.np, 2, [[1,2]]⟩ ⟨Backend.np, 2, [[3,4]]⟩).2 rfl

/-- Claim C10: the einsum row-wise self dot products coincide with the
row-wise sums of elementwise squares on every batch, and consequently
`euclidean_np` and `euclidean_trick` are extensionally equal. -/
theorem einsum_eq_square_sum :
    (∀ x : List (List ℚ), einsumRowSelf x = rowSquareSum x) ∧
    ∀ (Mx My : ℕ) (x y : List (List ℚ)),
      euclidean_np Mx My x y = euclidean_trick Mx My x y := by
  constructor
  · intro x
    unfold einsumRowSelf rowSquareSum
    exact List.map_congr_left fun r _ => einsumRow_eq_sqRow r
  · intro Mx My x y
    unfold euclidean_np euclidean_trick
    by_cases h : Mx = My
    · rw [if_pos h, if_pos h]
      refine congrArg _ ?_
      apply List.map_congr_left
      intro a _
      apply List.map_congr_left
      intro b _
      rw [einsumRow_eq_sqRow, einsumRow_eq_sqRow]
    · rw [if_neg h, if_neg h]

end EuclidDM
